import Mathlib

/-!
Verification of the pennyekart agent-hierarchy subsystem: role-chain helpers,
the in-memory hierarchy builder, the form-submission defaulting rules, the
parent-candidate query, and the `pennyekart-agents` mutation endpoint.

Each definition is a shallow embedding of the corresponding TypeScript
source (`src/hooks/usePennyekartAgents.ts`,
`src/components/pennyekart/AgentFormDialog.tsx`, and the Deno edge function
serving `pennyekart-agents`).  JavaScript truthiness on nullable strings
(where both `null` and the empty string are falsy) is modelled explicitly by
`jsTruthy`.
-/

/-- The four wire-stable agent roles (`AgentRole` in
`usePennyekartAgents.ts`). -/
inductive AgentRole where
  | team_leader
  | coordinator
  | group_leader
  | pro
deriving DecidableEq, Repr

/-- `ROLE_HIERARCHY` from `usePennyekartAgents.ts`: the fixed ordered
4-element role chain. -/
def ROLE_HIERARCHY : List AgentRole :=
  [.team_leader, .coordinator, .group_leader, .pro]

/-- `getParentRole` from `usePennyekartAgents.ts`: the role one level above,
or `none` for the topmost role. -/
def getParentRole (role : AgentRole) : Option AgentRole :=
  let index := ROLE_HIERARCHY.indexOf role
  if index > 0 then ROLE_HIERARCHY.get? (index - 1) else none

/-- `getChildRole` from `usePennyekartAgents.ts`: the role one level below,
or `none` for the bottommost role. -/
def getChildRole (role : AgentRole) : Option AgentRole :=
  let index := ROLE_HIERARCHY.indexOf role
  if index < ROLE_HIERARCHY.length - 1 then ROLE_HIERARCHY.get? (index + 1) else none

/-- JavaScript truthiness of a nullable string: `null` and `""` are falsy,
every other string is truthy. -/
def jsTruthy : Option String → Bool
  | none => false
  | some s => !(s == "")

/-- `x || null` on a nullable string, as used for
`values.parent_agent_id || null` in `onSubmitSingle`. -/
def jsOrNull (o : Option String) : Option String :=
  if jsTruthy o then o else none

/-- The validated values of the single-agent form (`SingleAgentFormValues`,
zod schema `singleAgentSchema` in `AgentFormDialog.tsx`).  The zod defaults
make `ward` and the two responsibility arrays always present. -/
structure SingleAgentFormValues where
  name : String
  mobile : String
  role : AgentRole
  panchayath_id : String
  ward : String
  parent_agent_id : Option String
  customer_count : Int
  responsible_panchayath_ids : List String
  responsible_wards : List String
deriving DecidableEq, Repr

/-- The agent payload assembled by `onSubmitSingle` and handed to
`createAgent`/`updateAgent`. -/
structure AgentData where
  name : String
  mobile : String
  role : AgentRole
  panchayath_id : String
  ward : String
  parent_agent_id : Option String
  customer_count : Int
  responsible_panchayath_ids : List String
  responsible_wards : List String
  is_active : Bool
deriving DecidableEq, Repr

/-- The role-dependent defaulting applied by `onSubmitSingle` in
`AgentFormDialog.tsx` (lines 1157-1194) before the mutation call.  The
source mutates `values` in place; the mutation steps are reproduced here as
successive rebindings.  (`values.responsible_panchayath_ids || []` is the
identity because JavaScript arrays are always truthy.) -/
def onSubmitSingleDefaults (values : SingleAgentFormValues) : AgentData :=
  -- Team leaders do not have parents; ward falls back to the sentinel.
  let values :=
    if values.role = .team_leader then
      { values with
        parent_agent_id := none
        ward := if !(jsTruthy (some values.ward)) then "N/A" else values.ward }
    else values
  -- Only PROs can have a customer count.
  let values :=
    if values.role ≠ .pro then { values with customer_count := 0 } else values
  -- Responsibility scope based on role.
  let responsiblePanchayathIds : List String :=
    if values.role = .team_leader then values.responsible_panchayath_ids else []
  let responsibleWards : List String :=
    if values.role = .coordinator then values.responsible_wards else []
  { name := values.name
    mobile := values.mobile
    role := values.role
    panchayath_id := values.panchayath_id
    ward := if jsTruthy (some values.ward) then values.ward else "N/A"
    parent_agent_id := jsOrNull values.parent_agent_id
    customer_count := values.customer_count
    responsible_panchayath_ids := responsiblePanchayathIds
    responsible_wards := responsibleWards
    is_active := true }

/-- Reading a defaulted agent payload back as a form submission, so that the
defaulting step can be applied a second time (spec §8, idempotence). -/
def agentDataToValues (a : AgentData) : SingleAgentFormValues :=
  { name := a.name
    mobile := a.mobile
    role := a.role
    panchayath_id := a.panchayath_id
    ward := a.ward
    parent_agent_id := a.parent_agent_id
    customer_count := a.customer_count
    responsible_panchayath_ids := a.responsible_panchayath_ids
    responsible_wards := a.responsible_wards }

/-- C5: for every role that is neither topmost nor bottommost,
`getParentRole (getChildRole r) = r`; and `getParentRole team_leader` and
`getChildRole pro` are both absent. -/
theorem roleChain_inverse (r : AgentRole)
    (hTop : r ≠ AgentRole.team_leader) (hBot : r ≠ AgentRole.pro) :
    (getChildRole r).bind getParentRole = some r ∧
      getParentRole AgentRole.team_leader = none ∧
      getChildRole AgentRole.pro = none := by
  refine ⟨?_, by decide, by decide⟩
  cases r <;> first | decide | exact absurd rfl hTop | exact absurd rfl hBot

/-- C5 witness: the round trip at the concrete middle role `coordinator`. -/
theorem roleChain_inverse_witness :
    (AgentRole.coordinator ≠ AgentRole.team_leader ∧
      AgentRole.coordinator ≠ AgentRole.pro) ∧
    (getChildRole AgentRole.coordinator).bind getParentRole =
      some AgentRole.coordinator :=
  ⟨⟨by decide, by decide⟩,
    (roleChain_inverse AgentRole.coordinator (by decide) (by decide)).1⟩

/-- C3: the mutation defaulting table of `onSubmitSingle`: team leaders lose
their parent, blank wards become the sentinel, responsibility arrays are
cleared for non-owning roles, and non-PRO roles get `customer_count = 0`
while a PRO keeps the submitted count. -/
theorem onSubmitSingle_defaulting_table (v : SingleAgentFormValues) :
    (v.role = AgentRole.team_leader →
      (onSubmitSingleDefaults v).parent_agent_id = none ∧
      (v.ward = "" → (onSubmitSingleDefaults v).ward = "N/A") ∧
      (onSubmitSingleDefaults v).responsible_wards = []) ∧
    (v.role ≠ AgentRole.team_leader →
      (onSubmitSingleDefaults v).responsible_panchayath_ids = []) ∧
    (v.role ≠ AgentRole.coordinator →
      (onSubmitSingleDefaults v).responsible_wards = []) ∧
    (v.role ≠ AgentRole.pro → (onSubmitSingleDefaults v).customer_count = 0) ∧
    (v.role = AgentRole.pro →
      (onSubmitSingleDefaults v).customer_count = v.customer_count) := by
  obtain ⟨name, mobile, role, pid, ward, parent, cc, rp, rw⟩ := v
  cases role <;>
    simp [onSubmitSingleDefaults, jsTruthy, jsOrNull] <;>
    by_cases hw : ward = "" <;> simp [hw]

/-- C3 witness: submitting role `team_leader` with `customer_count = 50`
yields `customer_count = 0`, `parent_agent_id = null`, blank ward replaced
by the sentinel, and cleared responsible wards. -/
theorem onSubmitSingle_defaulting_table_witness :
    (let v : SingleAgentFormValues :=
      { name := "A", mobile := "9876543210", role := .team_leader,
        panchayath_id := "p1", ward := "", parent_agent_id := some "x",
        customer_count := 50, responsible_panchayath_ids := ["p2"],
        responsible_wards := ["3"] }
    (onSubmitSingleDefaults v).parent_agent_id = none ∧
      ((v.ward = "" → (onSubmitSingleDefaults v).ward = "N/A")) ∧
      (onSubmitSingleDefaults v).responsible_wards = []) := by
  exact (onSubmitSingle_defaulting_table _).1 rfl

/-- C4: the defaulting transformation is idempotent: re-submitting an
already-defaulted payload and defaulting it again changes nothing. -/
theorem onSubmitSingle_defaulting_idempotent (v : SingleAgentFormValues) :
    onSubmitSingleDefaults (agentDataToValues (onSubmitSingleDefaults v)) =
      onSubmitSingleDefaults v := by
  obtain ⟨name, mobile, role, pid, ward, parent, cc, rp, rw⟩ := v
  cases role <;>
    by_cases hw : ward = "" <;>
    cases parent <;>
    simp [onSubmitSingleDefaults, agentDataToValues, jsTruthy, jsOrNull, hw]
  all_goals (rename_i p; by_cases hp : p = "" <;> simp [hp])

/-- A `PennyekartAgent` record as fetched from the store
(`usePennyekartAgents.ts`); the optional joined fields (`panchayath`,
`parent_agent`) and the `children` field attached by the builder are not
part of the flat record. -/
structure Agent where
  id : String
  name : String
  mobile : String
  role : AgentRole
  panchayath_id : String
  ward : String
  parent_agent_id : Option String
  customer_count : Int
  is_active : Bool
  created_at : String
  updated_at : String
  created_by : Option String
  responsible_panchayath_ids : List String
  responsible_wards : List String
deriving DecidableEq, Repr

/-- The JavaScript `Map` of `buildHierarchyTree`, as an insertion-ordered
association list keyed by `Agent.id`. -/
def mapHas (m : List Agent) (key : String) : Bool :=
  m.any (fun b => b.id == key)

/-- `Map.set`: replace the value in place if the key exists, else append. -/
def mapSet (m : List Agent) (a : Agent) : List Agent :=
  if mapHas m a.id then m.map (fun b => if b.id == a.id then a else b)
  else m ++ [a]

/-- First pass of `buildHierarchyTree`: `agents.forEach(agent =>
agentMap.set(agent.id, { ...agent, children: [] }))`.  The shallow copy
with an empty children list is represented by the record itself; children
are tracked by `childrenOf`. -/
def agentMapList (agents : List Agent) : List Agent :=
  agents.foldl mapSet []

/-- The guard `agent.parent_agent_id && agentMap.has(agent.parent_agent_id)`
of the second pass, with JavaScript truthiness on the nullable string. -/
def resolvesInMap (m : List Agent) (pid : Option String) : Bool :=
  match pid with
  | none => false
  | some p => (!(p == "")) && mapHas m p

/-- The `rootAgents` array produced by the second pass: map entries whose
parent pointer is falsy or unresolvable in the map. -/
def rootsOf (m : List Agent) : List Agent :=
  m.filter (fun a => !(resolvesInMap m a.parent_agent_id))

/-- The final `children` array of the map node with id `pid`: the map
entries pushed onto it by the second pass, in map-iteration order. -/
def childrenOf (m : List Agent) (pid : String) : List Agent :=
  m.filter (fun a =>
    resolvesInMap m a.parent_agent_id && (a.parent_agent_id == some pid))

/-- A hierarchy node: an agent together with its nested `children`. -/
inductive AgentTree where
  | node (agent : Agent) (children : List AgentTree)
deriving Repr

/-- The agent at the top of a hierarchy node. -/
def AgentTree.top : AgentTree → Agent
  | .node a _ => a

/-- Unfold the children arrays of the map into a tree, reading the
`children` pushed by the second pass.  The fuel bounds the depth; with fuel
`m.length` it is exact whenever the parent links in `m` are acyclic (a
cyclic object graph has no tree representation). -/
def buildTree (m : List Agent) : Nat → Agent → AgentTree
  | 0, a => .node a []
  | fuel + 1, a => .node a ((childrenOf m a.id).map (buildTree m fuel))

/-- `buildHierarchyTree` from `usePennyekartAgents.ts` (lines 107-130):
build the id-keyed map, then return the root nodes with their recursively
populated children. -/
def buildHierarchyTree (agents : List Agent) : List AgentTree :=
  let m := agentMapList agents
  (rootsOf m).map (buildTree m m.length)

mutual

def flattenTree : AgentTree → List Agent
  | .node a ts => a :: flattenForest ts

def flattenForest : List AgentTree → List Agent
  | [] => []
  | t :: ts => flattenTree t ++ flattenForest ts

end

/-- The total number of nodes of a forest, roots plus all nested
children. -/
def totalNodeCount (forest : List AgentTree) : Nat :=
  (flattenForest forest).length

/-- Resolve an agent's parent pointer in the map: the record whose id the
(truthy) pointer names, if present.  This is the relational reading of the
map lookup performed by the second pass. -/
def parentAgent (m : List Agent) (a : Agent) : Option Agent :=
  match a.parent_agent_id with
  | none => none
  | some p => if p == "" then none else m.find? (fun b => b.id == p)

/-- Number of parent-pointer steps from an agent up to a root, bounded by
the fuel; `none` when no root is reached within the fuel (in particular on
a cyclic parent chain). -/
def stepsToRoot (m : List Agent) : Nat → Agent → Option Nat
  | 0, a => match parentAgent m a with
    | none => some 0
    | some _ => none
  | fuel + 1, a => match parentAgent m a with
    | none => some 0
    | some p => (stepsToRoot m fuel p).map (· + 1)

/-- Number of parent-pointer steps needed to climb from `b` up to `x`,
bounded by the fuel. -/
def distTo (m : List Agent) : Nat → Agent → Agent → Option Nat
  | 0, x, b => if b = x then some 0 else none
  | fuel + 1, x, b =>
    if b = x then some 0
    else match parentAgent m b with
      | none => none
      | some p => (distTo m fuel x p).map (· + 1)

theorem mapHas_iff {m : List Agent} {k : String} :
    mapHas m k = true ↔ ∃ b ∈ m, b.id = k := by
  simp [mapHas]

theorem agentMapList_eq_self {L : List Agent}
    (h : (L.map Agent.id).Nodup) : agentMapList L = L := by
  suffices haux : ∀ (l acc : List Agent),
      ((acc ++ l).map Agent.id).Nodup → l.foldl mapSet acc = acc ++ l by
    simpa using haux L [] (by simpa using h)
  intro l
  induction l with
  | nil => simp
  | cons a l ih =>
    intro acc hacc
    have hnotin : mapHas acc a.id = false := by
      cases hcase : mapHas acc a.id
      · rfl
      · exfalso
        rcases mapHas_iff.mp hcase with ⟨b, hb, hid⟩
        have : a.id ∈ acc.map Agent.id := List.mem_map.mpr ⟨b, hb, hid⟩
        have hd := hacc
        rw [List.map_append, List.nodup_append] at hd
        exact hd.2.2 this (by simp)
    have hset : mapSet acc a = acc ++ [a] := by
      simp [mapSet, hnotin]
    rw [List.foldl_cons, hset, ih (acc ++ [a]) (by simpa using hacc)]
    simp

theorem parentAgent_mem {m : List Agent} {a p : Agent}
    (h : parentAgent m a = some p) : p ∈ m := by
  unfold parentAgent at h
  rcases hpa : a.parent_agent_id with _ | q
  · simp [hpa] at h
  · rw [hpa] at h
    by_cases hq : q = ""
    · simp [hq] at h
    · simp only [beq_iff_eq, if_neg hq] at h
      exact List.mem_of_find?_eq_some h

theorem parentAgent_some_elim {m : List Agent} {a p : Agent}
    (h : parentAgent m a = some p) :
    a.parent_agent_id = some p.id ∧ p ∈ m ∧ p.id ≠ "" := by
  unfold parentAgent at h
  rcases hpa : a.parent_agent_id with _ | q
  · simp [hpa] at h
  · rw [hpa] at h
    by_cases hq : q = ""
    · simp [hq] at h
    · simp only [beq_iff_eq, if_neg hq] at h
      have hpq : p.id = q := by
        have := List.find?_some h
        simpa using this
      exact ⟨by rw [hpq], List.mem_of_find?_eq_some h, by rw [hpq]; exact hq⟩

theorem find?_id_of_nodup {m : List Agent} {x : Agent}
    (hnod : (m.map Agent.id).Nodup) (hx : x ∈ m) :
    m.find? (fun b => b.id == x.id) = some x := by
  induction m with
  | nil => simp at hx
  | cons h t ih =>
    by_cases hh : h.id = x.id
    · have hhx : h = x := by
        rcases List.mem_cons.mp hx with hx1 | hx1
        · exact hx1.symm
        · exfalso
          have : x.id ∈ t.map Agent.id := List.mem_map.mpr ⟨x, hx1, rfl⟩
          rw [List.map_cons, List.nodup_cons] at hnod
          exact hnod.1 (hh ▸ this)
      have hbeq : (h.id == x.id) = true := beq_iff_eq.mpr hh
      rw [List.find?_cons, hbeq, hhx]
    · have hxt : x ∈ t := by
        rcases List.mem_cons.mp hx with hx1 | hx1
        · exact absurd (congrArg Agent.id hx1.symm) hh
        · exact hx1
      rw [List.map_cons, List.nodup_cons] at hnod
      have hbeq : (h.id == x.id) = false := beq_eq_false_iff_ne.mpr hh
      rw [List.find?_cons, hbeq]
      exact ih hnod.2 hxt

theorem parentAgent_intro {m : List Agent} {a x : Agent}
    (hnod : (m.map Agent.id).Nodup) (hx : x ∈ m)
    (hpa : a.parent_agent_id = some x.id) (hne : x.id ≠ "") :
    parentAgent m a = some x := by
  unfold parentAgent
  rw [hpa]
  have hbeq : (x.id == "") = false := beq_eq_false_iff_ne.mpr hne
  simp only [hbeq, Bool.false_eq_true, if_false]
  exact find?_id_of_nodup hnod hx

theorem resolvesInMap_eq_isSome {m : List Agent} {a : Agent} :
    resolvesInMap m a.parent_agent_id = (parentAgent m a).isSome := by
  unfold resolvesInMap parentAgent
  rcases hpa : a.parent_agent_id with _ | q
  · rfl
  · by_cases hq : q = ""
    · simp [hq]
    · have hbeq : (q == "") = false := beq_eq_false_iff_ne.mpr hq
      simp only [hbeq, Bool.false_eq_true, if_false, Bool.not_false, Bool.true_and]
      rw [Bool.eq_iff_iff]
      simp [mapHas, List.find?_isSome]

theorem childrenOf_iff {m : List Agent} {x c : Agent}
    (hnod : (m.map Agent.id).Nodup) (hx : x ∈ m) :
    c ∈ childrenOf m x.id ↔ c ∈ m ∧ parentAgent m c = some x := by
  unfold childrenOf
  rw [List.mem_filter]
  constructor
  · rintro ⟨hcm, hcond⟩
    rcases Bool.and_eq_true _ _ |>.mp hcond with ⟨hres, heq⟩
    have hpc : c.parent_agent_id = some x.id := by simpa using heq
    have hne : x.id ≠ "" := by
      unfold resolvesInMap at hres
      rw [hpc] at hres
      rcases Bool.and_eq_true _ _ |>.mp hres with ⟨hne', _⟩
      simpa using hne'
    exact ⟨hcm, parentAgent_intro hnod hx hpc hne⟩
  · rintro ⟨hcm, hpa⟩
    obtain ⟨hpc, _, hne⟩ := parentAgent_some_elim hpa
    refine ⟨hcm, ?_⟩
    rw [Bool.and_eq_true]
    constructor
    · unfold resolvesInMap
      rw [hpc, Bool.and_eq_true]
      exact ⟨by simpa using hne, mapHas_iff.mpr ⟨x, hx, rfl⟩⟩
    · simp [hpc]

theorem stepsToRoot_of_no_parent {m : List Agent} {r : Agent}
    (h : parentAgent m r = none) (fuel : Nat) :
    stepsToRoot m fuel r = some 0 := by
  cases fuel <;> simp [stepsToRoot, h]

theorem stepsToRoot_stab {m : List Agent} :
    ∀ {fuel : Nat} {a : Agent} {d : Nat}, stepsToRoot m fuel a = some d →
      stepsToRoot m (fuel + 1) a = some d := by
  intro fuel
  induction fuel with
  | zero =>
    intro a d h
    rcases hp : parentAgent m a with _ | p
    · simpa [stepsToRoot, hp] using h
    · simp [stepsToRoot, hp] at h
  | succ fuel ih =>
    intro a d h
    rcases hp : parentAgent m a with _ | p
    · simpa [stepsToRoot, hp] using h
    · rw [stepsToRoot, hp] at h
      have h2 : Option.map (fun x => x + 1) (stepsToRoot m fuel p) = some d := h
      rcases Option.map_eq_some'.mp h2 with ⟨e, he, hd⟩
      rw [stepsToRoot, hp]
      show Option.map (fun x => x + 1) (stepsToRoot m (fuel + 1) p) = some d
      rw [ih he]
      simpa using hd

theorem stepsToRoot_mono {m : List Agent} {fuel fuel2 : Nat} {a : Agent}
    {d : Nat} (hle : fuel ≤ fuel2) (h : stepsToRoot m fuel a = some d) :
    stepsToRoot m fuel2 a = some d := by
  induction fuel2 with
  | zero => exact (Nat.le_zero.mp hle) ▸ h
  | succ fuel2 ih =>
    rcases Nat.lt_or_ge fuel (fuel2 + 1) with hlt | hge
    · exact stepsToRoot_stab (ih (Nat.lt_succ_iff.mp hlt))
    · exact (Nat.le_antisymm hle hge) ▸ h

theorem distTo_self {m : List Agent} (fuel : Nat) (x : Agent) :
    distTo m fuel x x = some 0 := by
  cases fuel <;> simp [distTo]

theorem distTo_eq_zero {m : List Agent} {fuel : Nat} {x b : Agent}
    (h : distTo m fuel x b = some 0) : b = x := by
  cases fuel with
  | zero =>
    by_cases hbx : b = x
    · exact hbx
    · simp [distTo, hbx] at h
  | succ fuel =>
    by_cases hbx : b = x
    · exact hbx
    · rw [distTo, if_neg hbx] at h
      rcases hp : parentAgent m b with _ | p <;> rw [hp] at h
      · simp at h
      · rcases Option.map_eq_some'.mp h with ⟨e, _, hd⟩
        simp at hd

theorem distTo_of_no_parent {m : List Agent} {fuel : Nat} {x b : Agent}
    (hbx : b ≠ x) (hp : parentAgent m b = none) :
    distTo m fuel x b = none := by
  cases fuel <;> simp [distTo, hbx, hp]

theorem distTo_succ_of_parent {m : List Agent} {fuel : Nat} {x b p : Agent}
    (hbx : b ≠ x) (hp : parentAgent m b = some p) :
    distTo m (fuel + 1) x b = (distTo m fuel x p).map (· + 1) := by
  simp [distTo, hbx, hp]

theorem distTo_det {m : List Agent} :
    ∀ {fuel : Nat} {x b : Agent} {k : Nat} {fuel2 : Nat} {y : Agent},
      distTo m fuel x b = some k → distTo m fuel2 y b = some k → x = y := by
  intro fuel
  induction fuel with
  | zero =>
    intro x b k fuel2 y h1 h2
    by_cases hbx : b = x
    · subst hbx
      have hk : k = 0 := by
        rw [distTo_self] at h1
        exact (Option.some_inj.mp h1).symm
      subst hk
      exact distTo_eq_zero h2
    · simp [distTo, hbx] at h1
  | succ fuel ih =>
    intro x b k fuel2 y h1 h2
    by_cases hbx : b = x
    · subst hbx
      have hk : k = 0 := by
        rw [distTo_self] at h1
        exact (Option.some_inj.mp h1).symm
      subst hk
      exact distTo_eq_zero h2
    · rw [distTo, if_neg hbx] at h1
      rcases hp : parentAgent m b with _ | p <;> rw [hp] at h1
      · simp at h1
      · rcases Option.map_eq_some'.mp h1 with ⟨j, hj, hk⟩
        have hby : b ≠ y := by
          intro hby
          subst hby
          have : k = 0 := by simpa [distTo_self] using h2.symm
          omega
        cases fuel2 with
        | zero => simp [distTo, hby] at h2
        | succ fuel2 =>
          rw [distTo_succ_of_parent hby hp] at h2
          rcases Option.map_eq_some'.mp h2 with ⟨j2, hj2, hk2⟩
          have hjj : j2 = j := by omega
          subst hjj
          exact ih hj hj2

theorem distTo_stepsToRoot {m : List Agent} :
    ∀ {fuel : Nat} {x b : Agent} {k : Nat} {fuel2 : Nat} {d : Nat},
      distTo m fuel x b = some k → stepsToRoot m fuel2 b = some d →
      ∃ w, stepsToRoot m fuel2 x = some w ∧ k + w = d := by
  intro fuel
  induction fuel with
  | zero =>
    intro x b k fuel2 d h1 h2
    by_cases hbx : b = x
    · subst hbx
      have hk : k = 0 := by
        rw [distTo_self] at h1
        exact (Option.some_inj.mp h1).symm
      exact ⟨d, h2, by omega⟩
    · simp [distTo, hbx] at h1
  | succ fuel ih =>
    intro x b k fuel2 d h1 h2
    by_cases hbx : b = x
    · subst hbx
      have hk : k = 0 := by
        rw [distTo_self] at h1
        exact (Option.some_inj.mp h1).symm
      exact ⟨d, h2, by omega⟩
    · rw [distTo, if_neg hbx] at h1
      rcases hp : parentAgent m b with _ | p <;> rw [hp] at h1
      · simp at h1
      · rcases Option.map_eq_some'.mp h1 with ⟨j, hj, hk⟩
        cases fuel2 with
        | zero => simp [stepsToRoot, hp] at h2
        | succ fuel2 =>
          rw [stepsToRoot, hp] at h2
          rcases Option.map_eq_some'.mp h2 with ⟨e, he, hd⟩
          rcases ih hj he with ⟨w, hw, hkw⟩
          exact ⟨w, stepsToRoot_stab hw, by omega⟩

theorem distTo_parent_none {m : List Agent}
    (hterm : ∀ a ∈ m, (stepsToRoot m m.length a).isSome = true)
    {c x : Agent} (hx : x ∈ m)
    (hp : parentAgent m c = some x) (fuel : Nat) :
    distTo m fuel c x = none := by
  rcases hdist : distTo m fuel c x with _ | k
  · rfl
  · exfalso
    rcases Option.isSome_iff_exists.mp (hterm x hx) with ⟨d, hd⟩
    rcases distTo_stepsToRoot hdist hd with ⟨w, hw, hkw⟩
    cases hn : m.length with
    | zero => rw [hn] at hd; cases (List.length_eq_zero.mp hn) ▸ hx
    | succ e =>
      rw [hn] at hw
      rw [stepsToRoot, hp] at hw
      rcases Option.map_eq_some'.mp hw with ⟨u, hu, huw⟩
      have hux : stepsToRoot m (e + 1) x = some u := stepsToRoot_stab hu
      rw [hn, hux] at hd
      have : u = d := by simpa using hd
      omega

theorem flattenTree_node (a : Agent) (ts : List AgentTree) :
    flattenTree (.node a ts) = a :: flattenForest ts := by
  rw [flattenTree]

theorem flattenForest_nil : flattenForest [] = [] := by
  rw [flattenForest]

theorem flattenForest_cons (t : AgentTree) (ts : List AgentTree) :
    flattenForest (t :: ts) = flattenTree t ++ flattenForest ts := by
  rw [flattenForest]

theorem count_flattenForest (b : Agent) :
    ∀ ts : List AgentTree, (flattenForest ts).count b =
      (ts.map (fun t => (flattenTree t).count b)).sum := by
  intro ts
  induction ts with
  | nil => simp [flattenForest_nil]
  | cons t ts ih => simp [flattenForest_cons, List.count_append, ih]

theorem countP_eq_sum_map {α : Type} (p : α → Bool) (l : List α) :
    l.countP p = (l.map (fun a => if p a then 1 else 0)).sum := by
  induction l with
  | nil => simp
  | cons a l ih =>
    rw [List.countP_cons, List.map_cons, List.sum_cons, ih]
    by_cases hp : p a <;> simp [hp] <;> omega

theorem countP_congr_list {α : Type} {p q : α → Bool} :
    ∀ {l : List α}, (∀ a ∈ l, p a = q a) → l.countP p = l.countP q := by
  intro l
  induction l with
  | nil => simp
  | cons a l ih =>
    intro h
    rw [List.countP_cons, List.countP_cons, h a (by simp),
      ih (fun c hc => h c (by simp [hc]))]

theorem countP_beq_eq_count {α : Type} [DecidableEq α] (b : α) (l : List α) :
    l.countP (fun c => c == b) = l.count b := by
  induction l with
  | nil => simp
  | cons a l ih => rw [List.countP_cons, List.count_cons, ih]

theorem childrenOf_parent {m : List Agent} {x c : Agent}
    (hnod : (m.map Agent.id).Nodup) (hx : x ∈ m)
    (hc : c ∈ childrenOf m x.id) : parentAgent m c = some x :=
  ((childrenOf_iff hnod hx).mp hc).2

theorem aux_children_countP {m : List Agent}
    (hnod : (m.map Agent.id).Nodup)
    (hterm : ∀ a ∈ m, (stepsToRoot m m.length a).isSome = true) :
    ∀ (fuel : Nat) {b x : Agent}, x ∈ m → b ∈ m → b ≠ x →
      (childrenOf m x.id).countP (fun c => (distTo m fuel c b).isSome) =
        if (distTo m (fuel + 1) x b).isSome then 1 else 0 := by
  have hmn : m.Nodup := hnod.of_map
  have hchn : ∀ pid : String, (childrenOf m pid).Nodup := by
    intro pid
    unfold childrenOf
    exact hmn.filter _
  intro fuel
  induction fuel with
  | zero =>
    intro b x hx hb hbx
    rcases hp : parentAgent m b with _ | p
    · rw [List.countP_eq_zero.mpr, distTo_of_no_parent hbx hp]
      · simp
      · intro c hcm
        have hcb : b ≠ c := by
          intro h
          rw [h, childrenOf_parent hnod hx hcm] at hp
          cases hp
        simp [distTo, hcb]
    · by_cases hpx : p = x
      · subst hpx
        have hbc : b ∈ childrenOf m p.id :=
          (childrenOf_iff hnod hx).mpr ⟨hb, hp⟩
        rw [countP_congr_list (q := fun c => c == b), countP_beq_eq_count,
          List.count_eq_one_of_mem (hchn p.id) hbc,
          distTo_succ_of_parent hbx hp, distTo_self]
        · simp
        · intro c hcm
          by_cases hcb : c = b
          · simp [hcb, distTo_self]
          · have hbc2 : b ≠ c := fun h => hcb h.symm
            simp [distTo, hbc2, hcb]
      · rw [List.countP_eq_zero.mpr, distTo_succ_of_parent hbx hp]
        · have : distTo m 0 x p = none := by simp [distTo, hpx]
          simp [this]
        · intro c hcm
          have hcb : b ≠ c := by
            intro h
            rw [h, childrenOf_parent hnod hx hcm] at hp
            exact hpx (Option.some_inj.mp hp).symm
          simp [distTo, hcb]
  | succ fuel ih =>
    intro b x hx hb hbx
    rcases hp : parentAgent m b with _ | p
    · rw [List.countP_eq_zero.mpr, distTo_of_no_parent hbx hp]
      · simp
      · intro c hcm
        have hcb : b ≠ c := by
          intro h
          rw [h, childrenOf_parent hnod hx hcm] at hp
          cases hp
        simp [distTo_of_no_parent hcb hp]
    · by_cases hpx : p = x
      · subst hpx
        have hbc : b ∈ childrenOf m p.id :=
          (childrenOf_iff hnod hx).mpr ⟨hb, hp⟩
        rw [countP_congr_list (q := fun c => c == b), countP_beq_eq_count,
          List.count_eq_one_of_mem (hchn p.id) hbc,
          distTo_succ_of_parent hbx hp, distTo_self]
        · simp
        · intro c hcm
          by_cases hcb : c = b
          · simp [hcb, distTo_self]
          · have hbc2 : b ≠ c := fun h => hcb h.symm
            rw [distTo_succ_of_parent hbc2 hp,
              distTo_parent_none hterm hx (childrenOf_parent hnod hx hcm) fuel]
            simp [hcb]
      · have hpm : p ∈ m := parentAgent_mem hp
        have hstep : ∀ c ∈ childrenOf m x.id,
            (distTo m (fuel + 1) c b).isSome = (distTo m fuel c p).isSome := by
          intro c hcm
          have hcb : b ≠ c := by
            intro h
            rw [h, childrenOf_parent hnod hx hcm] at hp
            exact hpx (Option.some_inj.mp hp).symm
          rw [distTo_succ_of_parent hcb hp]
          rcases distTo m fuel c p with _ | k <;> simp
        rw [countP_congr_list hstep, ih hx hpm hpx,
          distTo_succ_of_parent hbx hp]
        rcases distTo m (fuel + 1) x p with _ | k <;> simp

theorem count_flattenTree_buildTree {m : List Agent}
    (hnod : (m.map Agent.id).Nodup)
    (hterm : ∀ a ∈ m, (stepsToRoot m m.length a).isSome = true) :
    ∀ (fuel : Nat) {x b : Agent}, x ∈ m → b ∈ m →
      (flattenTree (buildTree m fuel x)).count b =
        if (distTo m fuel x b).isSome then 1 else 0 := by
  intro fuel
  induction fuel with
  | zero =>
    intro x b hx hb
    rw [buildTree, flattenTree_node, flattenForest_nil]
    by_cases hbx : b = x
    · subst hbx
      simp [distTo]
    · have : x ≠ b := fun h => hbx h.symm
      simp [List.count_cons, distTo, hbx, this]
  | succ fuel ih =>
    intro x b hx hb
    rw [buildTree, flattenTree_node, List.count_cons, count_flattenForest,
      List.map_map]
    have hsum : ((childrenOf m x.id).map
        ((fun t => (flattenTree t).count b) ∘ buildTree m fuel)).sum =
        (childrenOf m x.id).countP (fun c => (distTo m fuel c b).isSome) := by
      rw [countP_eq_sum_map]
      apply congrArg
      apply List.map_congr_left
      intro c hcm
      have hcmem : c ∈ m := by
        unfold childrenOf at hcm
        exact (List.mem_filter.mp hcm).1
      show (flattenTree (buildTree m fuel c)).count b = _
      exact ih hcmem hb
    rw [hsum]
    by_cases hbx : b = x
    · subst hbx
      rw [List.countP_eq_zero.mpr, distTo_self]
      · simp
      · intro c hcm
        rw [distTo_parent_none hterm hx (childrenOf_parent hnod hx hcm) fuel]
        simp
    · rw [aux_children_countP hnod hterm fuel hx hb hbx]
      have : (b == x) = false := beq_eq_false_iff_ne.mpr hbx
      simp [this]
      exact fun h => hbx h.symm

theorem mem_of_mem_flattenTree_buildTree {m : List Agent} :
    ∀ (fuel : Nat) {x c : Agent}, x ∈ m →
      c ∈ flattenTree (buildTree m fuel x) → c ∈ m := by
  intro fuel
  induction fuel with
  | zero =>
    intro x c hx hc
    rw [buildTree, flattenTree_node, flattenForest_nil] at hc
    rcases List.mem_singleton.mp hc with rfl
    exact hx
  | succ fuel ih =>
    intro x c hx hc
    rw [buildTree, flattenTree_node] at hc
    rcases List.mem_cons.mp hc with rfl | hc2
    · exact hx
    · have hforest : ∀ (xs : List Agent), (∀ y ∈ xs, y ∈ m) →
          c ∈ flattenForest (xs.map (buildTree m fuel)) → c ∈ m := by
        intro xs
        induction xs with
        | nil => intro _ h; rw [List.map_nil, flattenForest_nil] at h; cases h
        | cons a xs ihxs =>
          intro hxs h
          rw [List.map_cons, flattenForest_cons] at h
          rcases List.mem_append.mp h with h1 | h2
          · exact ih (hxs a (by simp)) h1
          · exact ihxs (fun y hy => hxs y (by simp [hy])) h2
      refine hforest (childrenOf m x.id) ?_ hc2
      intro y hy
      unfold childrenOf at hy
      exact (List.mem_filter.mp hy).1

theorem exists_root_dist {m : List Agent} :
    ∀ (fuel : Nat) {b : Agent}, b ∈ m →
      (stepsToRoot m fuel b).isSome = true →
      ∃ r, r ∈ m ∧ parentAgent m r = none ∧
        (distTo m fuel r b).isSome = true := by
  intro fuel
  induction fuel with
  | zero =>
    intro b hb hs
    rcases hp : parentAgent m b with _ | p
    · exact ⟨b, hb, hp, by simp [distTo]⟩
    · rw [stepsToRoot, hp] at hs
      simp at hs
  | succ fuel ih =>
    intro b hb hs
    rcases hp : parentAgent m b with _ | p
    · exact ⟨b, hb, hp, by simp [distTo_self]⟩
    · have hs2 : (Option.map (fun x => x + 1) (stepsToRoot m fuel p)).isSome
          = true := by
        rw [stepsToRoot, hp] at hs
        exact hs
      have hsp : (stepsToRoot m fuel p).isSome = true := by
        rcases h2 : stepsToRoot m fuel p with _ | e
        · rw [h2] at hs2; simp at hs2
        · rfl
      rcases ih (parentAgent_mem hp) hsp with ⟨r, hrm, hroot, hdist⟩
      refine ⟨r, hrm, hroot, ?_⟩
      by_cases hbr : b = r
      · subst hbr; simp [distTo_self]
      · rw [distTo_succ_of_parent hbr hp]
        rcases h3 : distTo m fuel r p with _ | k
        · rw [h3] at hdist; simp at hdist
        · simp

theorem root_dist_unique {m : List Agent}
    (hterm : ∀ a ∈ m, (stepsToRoot m m.length a).isSome = true)
    {b r1 r2 : Agent} (hb : b ∈ m)
    (hroot1 : parentAgent m r1 = none) (hroot2 : parentAgent m r2 = none)
    (hd1 : (distTo m m.length r1 b).isSome = true)
    (hd2 : (distTo m m.length r2 b).isSome = true) : r1 = r2 := by
  rcases Option.isSome_iff_exists.mp (hterm b hb) with ⟨d, hd⟩
  rcases Option.isSome_iff_exists.mp hd1 with ⟨k1, hk1⟩
  rcases Option.isSome_iff_exists.mp hd2 with ⟨k2, hk2⟩
  rcases distTo_stepsToRoot hk1 hd with ⟨w1, hw1, hkw1⟩
  rcases distTo_stepsToRoot hk2 hd with ⟨w2, hw2, hkw2⟩
  rw [stepsToRoot_of_no_parent hroot1] at hw1
  rw [stepsToRoot_of_no_parent hroot2] at hw2
  have hw1z : w1 = 0 := (Option.some_inj.mp hw1).symm
  have hw2z : w2 = 0 := (Option.some_inj.mp hw2).symm
  have hk12 : k1 = k2 := by omega
  exact distTo_det hk1 (hk12 ▸ hk2)

theorem top_buildTree (m : List Agent) (fuel : Nat) (x : Agent) :
    (buildTree m fuel x).top = x := by
  cases fuel <;> rfl

theorem mem_of_mem_flattenForest_map {m : List Agent} (fuel : Nat) :
    ∀ (xs : List Agent), (∀ y ∈ xs, y ∈ m) →
      ∀ c ∈ flattenForest (xs.map (buildTree m fuel)), c ∈ m := by
  intro xs
  induction xs with
  | nil =>
    intro _ c hc
    rw [List.map_nil, flattenForest_nil] at hc
    cases hc
  | cons a xs ih =>
    intro hxs c hc
    rw [List.map_cons, flattenForest_cons] at hc
    rcases List.mem_append.mp hc with h1 | h2
    · exact mem_of_mem_flattenTree_buildTree fuel (hxs a (by simp)) h1
    · exact ih (fun y hy => hxs y (by simp [hy])) c h2

theorem rootsOf_sub {m : List Agent} {r : Agent} (h : r ∈ rootsOf m) :
    r ∈ m := by
  unfold rootsOf at h
  exact (List.mem_filter.mp h).1

theorem rootsOf_parentAgent {m : List Agent} {r : Agent}
    (h : r ∈ rootsOf m) : parentAgent m r = none := by
  unfold rootsOf at h
  have hcond := (List.mem_filter.mp h).2
  rw [resolvesInMap_eq_isSome] at hcond
  rcases hp : parentAgent m r with _ | p
  · rfl
  · rw [hp] at hcond
    simp at hcond

theorem mem_rootsOf {m : List Agent} {r : Agent} (hrm : r ∈ m)
    (h : parentAgent m r = none) : r ∈ rootsOf m := by
  unfold rootsOf
  rw [List.mem_filter]
  refine ⟨hrm, ?_⟩
  rw [resolvesInMap_eq_isSome, h]
  rfl

/-- C1 (amended): for every agent list with pairwise-distinct ids whose
resolvable parent links contain no cycle, the forest returned by
`buildHierarchyTree` contains every input agent exactly once — its flattened
node list is a permutation of the input, so the total node count equals the
input length. -/
theorem buildHierarchy_nodes_perm_input (L : List Agent)
    (hnod : (L.map Agent.id).Nodup)
    (hterm : ∀ a ∈ L, (stepsToRoot L L.length a).isSome = true) :
    (flattenForest (buildHierarchyTree L)).Perm L ∧
      totalNodeCount (buildHierarchyTree L) = L.length := by
  have hm : agentMapList L = L := agentMapList_eq_self hnod
  have hbt : buildHierarchyTree L = (rootsOf L).map (buildTree L L.length) := by
    unfold buildHierarchyTree
    rw [hm]
  have hLn : L.Nodup := hnod.of_map
  have hperm : (flattenForest (buildHierarchyTree L)).Perm L := by
    rw [hbt, List.perm_iff_count]
    intro b
    by_cases hb : b ∈ L
    · rw [count_flattenForest, List.map_map]
      have hsum : ((rootsOf L).map
          ((fun t => (flattenTree t).count b) ∘ buildTree L L.length)).sum =
          (rootsOf L).countP (fun r => (distTo L L.length r b).isSome) := by
        rw [countP_eq_sum_map]
        apply congrArg
        apply List.map_congr_left
        intro r hr
        show (flattenTree (buildTree L L.length r)).count b = _
        exact count_flattenTree_buildTree hnod hterm _ (rootsOf_sub hr) hb
      rw [hsum]
      rcases exists_root_dist L.length hb (hterm b hb) with
        ⟨r0, hr0m, hr0root, hr0d⟩
      have hr0roots : r0 ∈ rootsOf L := mem_rootsOf hr0m hr0root
      have hcongr : ∀ r ∈ rootsOf L,
          ((distTo L L.length r b).isSome : Bool) = (r == r0) := by
        intro r hr
        by_cases hd : (distTo L L.length r b).isSome = true
        · rw [hd]
          have := root_dist_unique hterm hb (rootsOf_parentAgent hr)
            hr0root hd hr0d
          rw [this]
          simp
        · have hdf : (distTo L L.length r b).isSome = false := by
            rcases h2 : (distTo L L.length r b).isSome
            · rfl
            · exact absurd h2 hd
          rw [hdf]
          symm
          rw [beq_eq_false_iff_ne]
          intro h
          rw [h] at hdf
          rw [hr0d] at hdf
          cases hdf
      rw [countP_congr_list hcongr, countP_beq_eq_count]
      have hrootsnodup : (rootsOf L).Nodup := by
        unfold rootsOf
        exact hLn.filter _
      rw [List.count_eq_one_of_mem hrootsnodup hr0roots,
        List.count_eq_one_of_mem hLn hb]
    · rw [List.count_eq_zero.mpr, List.count_eq_zero.mpr hb]
      intro hmem
      exact hb (mem_of_mem_flattenForest_map L.length (rootsOf L)
        (fun y hy => rootsOf_sub hy) b hmem)
  refine ⟨hperm, ?_⟩
  unfold totalNodeCount
  exact hperm.length_eq

/-- A concrete agent record used in scenarios and counterexamples. -/
def mkAgent (id : String) (role : AgentRole) (parent : Option String) :
    Agent :=
  { id := id, name := id, mobile := "9999999999", role := role,
    panchayath_id := "p", ward := "1", parent_agent_id := parent,
    customer_count := 0, is_active := true, created_at := "",
    updated_at := "", created_by := none,
    responsible_panchayath_ids := [], responsible_wards := [] }

/-- The spec §8 scenario chain: team leader 1 ← coordinator 2 ← pro 3. -/
def hierarchyScenario : List Agent :=
  [mkAgent "1" .team_leader none, mkAgent "2" .coordinator (some "1"),
    mkAgent "3" .pro (some "2")]

/-- C1 counterexample: a single self-parenting agent is neither a root nor
reachable, so the returned forest has 0 nodes while the input has 1 — the
unconditional claim fails on cyclic parent links. -/
theorem buildHierarchy_selfParent_counterexample :
    totalNodeCount (buildHierarchyTree [mkAgent "a" .pro (some "a")]) = 0 ∧
      totalNodeCount (buildHierarchyTree [mkAgent "a" .pro (some "a")]) ≠
        [mkAgent "a" .pro (some "a")].length := by
  constructor
  · rfl
  · decide

/-- C1 witness: the scenario chain satisfies both hypotheses and its forest
carries exactly 3 nodes. -/
theorem buildHierarchy_nodes_perm_input_witness :
    ((hierarchyScenario.map Agent.id).Nodup ∧
      ∀ a ∈ hierarchyScenario,
        (stepsToRoot hierarchyScenario hierarchyScenario.length a).isSome
          = true) ∧
    totalNodeCount (buildHierarchyTree hierarchyScenario) =
      hierarchyScenario.length :=
  ⟨⟨by decide, by decide⟩,
    (buildHierarchy_nodes_perm_input hierarchyScenario (by decide)
      (by decide)).2⟩

/-- The spec §8 filtered scenario: the team leader (id 1) is excluded, so
the coordinator (id 2) is parentless-in-set. -/
def filteredScenario : List Agent :=
  [mkAgent "2" .coordinator (some "1"), mkAgent "3" .pro (some "2")]

/-- C2 (amended): with pairwise-distinct ids, an agent is a root of the
returned forest iff its parent pointer is null, empty, or matches no id in
the input (the empty string is treated as "no parent" by the builder's
JavaScript truthiness test); every agent whose (non-empty) parent pointer
matches an input agent lands in that agent's children list; and the
filtered scenario yields one root (id 2) with single child (id 3). -/
theorem buildHierarchy_roots_characterisation (L : List Agent)
    (hnod : (L.map Agent.id).Nodup) :
    (∀ a ∈ L, ((∃ t ∈ buildHierarchyTree L, t.top = a) ↔
      (a.parent_agent_id = none ∨ a.parent_agent_id = some "" ∨
        ∀ b ∈ L, some b.id ≠ a.parent_agent_id))) ∧
    (∀ a ∈ L, ∀ b ∈ L, a.parent_agent_id = some b.id → b.id ≠ "" →
      a ∈ childrenOf L b.id) ∧
    buildHierarchyTree filteredScenario =
      [.node (mkAgent "2" .coordinator (some "1"))
        [.node (mkAgent "3" .pro (some "2")) []]] := by
  have hm : agentMapList L = L := agentMapList_eq_self hnod
  have hbt : buildHierarchyTree L = (rootsOf L).map (buildTree L L.length) := by
    unfold buildHierarchyTree
    rw [hm]
  refine ⟨?_, ?_, ?_⟩
  · intro a ha
    rw [hbt]
    have hmem : (∃ t ∈ (rootsOf L).map (buildTree L L.length), t.top = a) ↔
        a ∈ rootsOf L := by
      constructor
      · rintro ⟨t, ht, htop⟩
        rcases List.mem_map.mp ht with ⟨r, hr, rfl⟩
        rw [top_buildTree] at htop
        exact htop ▸ hr
      · intro hr
        exact ⟨buildTree L L.length a, List.mem_map.mpr ⟨a, hr, rfl⟩,
          top_buildTree _ _ _⟩
    rw [hmem]
    unfold rootsOf
    rw [List.mem_filter]
    constructor
    · rintro ⟨-, hcond⟩
      unfold resolvesInMap at hcond
      rcases hpa : a.parent_agent_id with _ | q
      · exact Or.inl rfl
      · rw [hpa] at hcond
        have hcond2 : (!(!(q == "") && mapHas L q)) = true := hcond
        by_cases hq : q = ""
        · exact Or.inr (Or.inl (by rw [hq]))
        · refine Or.inr (Or.inr ?_)
          intro b hb hbq
          have hqid : b.id = q := Option.some_inj.mp hbq
          have hhas : mapHas L q = true := mapHas_iff.mpr ⟨b, hb, hqid⟩
          rw [hhas] at hcond2
          have hbeq : (q == "") = false := beq_eq_false_iff_ne.mpr hq
          rw [hbeq] at hcond2
          simp at hcond2
    · intro hcase
      refine ⟨ha, ?_⟩
      unfold resolvesInMap
      rcases hpa : a.parent_agent_id with _ | q
      · rfl
      · show (!(!(q == "") && mapHas L q)) = true
        rcases hcase with h0 | h1 | h2
        · rw [hpa] at h0
          exact Option.noConfusion h0
        · rw [hpa] at h1
          have hq : q = "" := Option.some_inj.mp h1
          simp [hq]
        · have hhas : mapHas L q = false := by
            cases hcase2 : mapHas L q
            · rfl
            · exfalso
              rcases mapHas_iff.mp hcase2 with ⟨b, hb, hbq⟩
              exact h2 b hb (by rw [hbq, hpa])
          rw [hhas]
          simp
  · intro a ha b hb hpa hne
    unfold childrenOf
    rw [List.mem_filter]
    refine ⟨ha, ?_⟩
    rw [Bool.and_eq_true]
    constructor
    · unfold resolvesInMap
      rw [hpa, Bool.and_eq_true]
      exact ⟨by simpa using hne, mapHas_iff.mpr ⟨b, hb, rfl⟩⟩
    · simp [hpa]
  · rfl

/-- C2 counterexample: with the two distinct-id agents
`[{id:"",...}, {id:"x", parent:""}]` the agent `x` appears as a root even
though its `parent_agent_id` equals the id of an agent in the input — the
builder treats the empty-string parent pointer as falsy. -/
theorem buildHierarchy_emptyParent_counterexample :
    (([mkAgent "" .team_leader none,
        mkAgent "x" .pro (some "")].map Agent.id).Nodup) ∧
    (∃ t ∈ buildHierarchyTree
        [mkAgent "" .team_leader none, mkAgent "x" .pro (some "")],
      t.top = mkAgent "x" .pro (some "")) ∧
    (∃ b ∈ [mkAgent "" .team_leader none, mkAgent "x" .pro (some "")],
      some b.id = (mkAgent "x" .pro (some "")).parent_agent_id) := by
  refine ⟨by decide, ?_, ?_⟩
  · decide
  · decide

/-- C2 witness: the filtered scenario has distinct ids and produces the
single root (id 2) with single child (id 3). -/
theorem buildHierarchy_roots_characterisation_witness :
    ((filteredScenario.map Agent.id).Nodup) ∧
    buildHierarchyTree filteredScenario =
      [.node (mkAgent "2" .coordinator (some "1"))
        [.node (mkAgent "3" .pro (some "2")) []]] :=
  ⟨by decide,
    (buildHierarchy_roots_characterisation filteredScenario (by decide)).2.2⟩

/-- A row of the `pennyekart_agents` table, with column nullability as in
the generated database types. -/
structure AgentRow where
  id : String
  name : String
  mobile : String
  role : AgentRole
  panchayath_id : String
  ward : String
  parent_agent_id : Option String
  customer_count : Option Int
  responsible_panchayath_ids : Option (List String)
  responsible_wards : Option (List String)
  is_active : Option Bool
  created_at : Option String
  updated_at : Option String
  created_by : Option String
deriving DecidableEq, Repr

/-- `fetchParentAgents` from `AgentFormDialog.tsx` (single dialog, lines
109-129; the bulk dialog repeats the same query): candidate parents for the
selected role and panchayath.  The source selects only the columns
`id, name, role, ward` for display; the rows themselves are returned here,
which does not change which agents are offered.  The empty string is the
falsy "no panchayath selected" state of the component. -/
def fetchParentAgents (store : List AgentRow) (selectedRole : AgentRole)
    (selectedPanchayath : String) : List AgentRow :=
  match getParentRole selectedRole with
  | none => []
  | some parentRole =>
    if !(jsTruthy (some selectedPanchayath)) then []
    else
      (store.filter (fun r =>
          r.panchayath_id == selectedPanchayath && r.role == parentRole &&
            r.is_active == some true)).mergeSort
        (fun a b => decide (a.name ≤ b.name))

/-- C8: the parent-candidate listing returns exactly the agents with
role = `getParentRole targetRole`, home panchayath equal to the selected
one, and `is_active = true` — no widening by responsibility scope. -/
theorem fetchParentAgents_exact (store : List AgentRow)
    (targetRole : AgentRole) (sel : String) (pr : AgentRole)
    (hpr : getParentRole targetRole = some pr) (hsel : sel ≠ "")
    (a : AgentRow) :
    a ∈ fetchParentAgents store targetRole sel ↔
      a ∈ store ∧ a.role = pr ∧ a.panchayath_id = sel ∧
        a.is_active = some true := by
  unfold fetchParentAgents
  rw [hpr]
  have htr : jsTruthy (some sel) = true := by
    simp [jsTruthy, hsel]
  rw [htr]
  simp only [Bool.not_true, Bool.false_eq_true, if_false, List.mem_mergeSort,
    List.mem_filter, Bool.and_eq_true, beq_iff_eq]
  constructor
  · rintro ⟨hm, ⟨hp, hr⟩, hact⟩
    exact ⟨hm, hr, hp, hact⟩
  · rintro ⟨hm, hr, hp, hact⟩
    exact ⟨hm, ⟨hp, hr⟩, hact⟩

/-- A concrete store row used by witnesses. -/
def mkRow (id : String) (role : AgentRole) (pid : String)
    (active : Bool) (mobile : String) : AgentRow :=
  { id := id, name := id, mobile := mobile, role := role,
    panchayath_id := pid, ward := "1", parent_agent_id := none,
    customer_count := some 0, responsible_panchayath_ids := some [],
    responsible_wards := some [], is_active := some active,
    created_at := some "t0", updated_at := some "t0", created_by := none }

/-- C8 witness: in a store with an active matching team leader, an inactive
one, a coordinator, and a team leader of another panchayath, exactly the
first is offered as parent for a new coordinator of panchayath p1. -/
theorem fetchParentAgents_exact_witness :
    (getParentRole AgentRole.coordinator = some AgentRole.team_leader ∧
      "p1" ≠ "") ∧
    (mkRow "tl" .team_leader "p1" true "m1" ∈
        fetchParentAgents
          [mkRow "tl" .team_leader "p1" true "m1",
            mkRow "tl2" .team_leader "p1" false "m2",
            mkRow "co" .coordinator "p1" true "m3",
            mkRow "tl3" .team_leader "p2" true "m4"]
          AgentRole.coordinator "p1" ↔
      mkRow "tl" .team_leader "p1" true "m1" ∈
          [mkRow "tl" .team_leader "p1" true "m1",
            mkRow "tl2" .team_leader "p1" false "m2",
            mkRow "co" .coordinator "p1" true "m3",
            mkRow "tl3" .team_leader "p2" true "m4"] ∧
        (mkRow "tl" .team_leader "p1" true "m1").role = .team_leader ∧
        (mkRow "tl" .team_leader "p1" true "m1").panchayath_id = "p1" ∧
        (mkRow "tl" .team_leader "p1" true "m1").is_active = some true) :=
  ⟨⟨by decide, by decide⟩,
    fetchParentAgents_exact _ AgentRole.coordinator "p1" AgentRole.team_leader
      (by decide) (by decide) _⟩

/-- The decoded admin-token payload (`AdminToken` in the edge function). -/
structure AdminTokenPayload where
  admin_id : String
  user_id : Option String
  division_id : String
  full_name : String
  exp : Int
deriving DecidableEq, Repr

/-- The fallback value of the `ADMIN_SECRET` environment variable in the
edge function. -/
def ADMIN_SECRET : String := "elife_admin_secret_2024"

/-- `TextEncoder().encode`: the UTF-8 bytes of a string. -/
def utf8Bytes (s : String) : List Nat :=
  s.toUTF8.toList.map (fun b => b.toNat)

/-- The 32-byte XOR accumulator of `parseAdminToken`:
`hashBuffer[i % 32] ^= data[i]` over a zero-initialised `Uint8Array(32)`. -/
def xorHash (data : List Nat) : List Nat :=
  (data.foldl
    (fun (st : List Nat × Nat) b =>
      let buf := st.1
      let i := st.2
      (buf.set (i % 32) (Nat.xor (buf.getD (i % 32) 0) b), i + 1))
    (List.replicate 32 0, 0)).1

/-- `b.toString(16).padStart(2, "0")` for a byte. -/
def hexByte (b : Nat) : String :=
  let s := String.mk (Nat.toDigits 16 b)
  if s.length < 2 then "0" ++ s else s

/-- The expected signature computed (and then ignored) by
`parseAdminToken`. -/
def computeExpectedSig (payloadB64 : String) : String :=
  String.join ((xorHash (utf8Bytes (payloadB64 ++ ADMIN_SECRET))).map hexByte)

/-- `token.split(".")` of JavaScript: split at every dot; an input without
dots yields a one-element list, and a trailing dot yields a trailing empty
component. -/
def splitDotAux : List Char → List Char → List String
  | [], acc => [String.mk acc.reverse]
  | c :: cs, acc =>
    if c = '.' then String.mk acc.reverse :: splitDotAux cs []
    else splitDotAux cs (c :: acc)

def splitDot (s : String) : List String :=
  splitDotAux s.data []

/-- `parseAdminToken` from the edge function.  `decode` stands for
`JSON.parse(atob(_))` of the Deno runtime (modelled from the spec: the
token's first dot-separated component is a base64 JSON payload); a parse
failure is `none` and lands in the `catch`.  The signature comparison
reproduces the source's dead branch: a mismatch changes nothing. -/
def parseAdminToken (decode : String → Option AdminTokenPayload) (now : Int)
    (token : String) : Option AdminTokenPayload :=
  let parts := splitDot token
  let payloadB64 := parts.headD ""
  let signature := (parts.drop 1).headD ""
  match decode payloadB64 with
  | none => none
  | some payload =>
    -- Verify expiration
    if payload.exp < now then none
    else
      -- Verify signature: computed and compared, but the mismatch branch is
      -- empty in the source ("For now, allow the token if payload is
      -- valid"), so the comparison result is discarded
      let expectedSig := computeExpectedSig payloadB64
      let _sigMatches := signature == expectedSig
      some payload

/-- A row of the `admins` table (columns as in the generated database
types). -/
structure AdminRow where
  id : String
  user_id : Option String
  division_id : String
  full_name : Option String
  phone : Option String
  password_hash : Option String
  is_active : Option Bool
  created_at : Option String
  created_by : Option String
  access_all_divisions : Bool
  additional_division_ids : List String
deriving DecidableEq, Repr

/-- A row of the `user_roles` table. -/
structure UserRoleRow where
  id : String
  user_id : String
  role : String
deriving DecidableEq, Repr

/-- The relevant tables of the hosted database. -/
structure DbState where
  admins : List AdminRow
  user_roles : List UserRoleRow
  agents : List AgentRow
deriving DecidableEq, Repr

/-- PostgREST `.single()`: the row when the query matched exactly one,
otherwise an error (read as `null` data by the destructuring callers). -/
def singleRow {α : Type} (rows : List α) : Option α :=
  match rows with
  | [x] => some x
  | _ => none

/-- The database operations a request performs, in order. -/
inductive DbOp where
  | readAdmins
  | readUserRoles
  | readAgents
  | insertAgents
  | updateAgents
  | deleteAgents
deriving DecidableEq, Repr

/-- The result shape of `verifyAdmin`. -/
structure VerifyResult where
  valid : Bool
  admin : Option AdminTokenPayload
  isSuperAdmin : Bool
deriving DecidableEq, Repr

/-- `verifyAdmin` from the edge function: parse the token, look the admin
up (active only), and probe `user_roles` for super-admin when the payload
carries a truthy `user_id`.  The second component is the trace of database
reads performed. -/
def verifyAdmin (decode : String → Option AdminTokenPayload) (now : Int)
    (db : DbState) (adminToken : String) : VerifyResult × List DbOp :=
  match parseAdminToken decode now adminToken with
  | none => (⟨false, none, false⟩, [])
  | some parsed =>
    let adminQuery := db.admins.filter (fun r =>
      r.id == parsed.admin_id && r.is_active == some true)
    match singleRow adminQuery with
    | none => (⟨false, none, false⟩, [.readAdmins])
    | some _ =>
      -- `if (parsed.user_id)`: JavaScript truthiness, "" is falsy
      match parsed.user_id with
      | some uid =>
        if uid = "" then (⟨true, some parsed, false⟩, [.readAdmins])
        else
          let roleQuery := db.user_roles.filter (fun r =>
            r.user_id == uid && r.role == "super_admin")
          (⟨true, some parsed, (singleRow roleQuery).isSome⟩,
            [.readAdmins, .readUserRoles])
      | none => (⟨true, some parsed, false⟩, [.readAdmins])

/-- A JSON agent object as submitted to the endpoint: every key may be
absent (`none`); a present key carries the column's (possibly null) value.
`panchayath`, `parent_agent` and `children` are the client-side join/tree
fields; their content is irrelevant to the store, so only their presence is
tracked. -/
structure SubmittedAgent where
  id : Option String
  name : Option String
  mobile : Option String
  role : Option AgentRole
  panchayath_id : Option String
  ward : Option String
  parent_agent_id : Option (Option String)
  customer_count : Option (Option Int)
  responsible_panchayath_ids : Option (Option (List String))
  responsible_wards : Option (Option (List String))
  is_active : Option (Option Bool)
  created_at : Option (Option String)
  updated_at : Option (Option String)
  created_by : Option (Option String)
  panchayath : Option Unit
  parent_agent : Option Unit
  children : Option Unit
deriving DecidableEq, Repr

/-- `{}`: the spread of an absent agent object. -/
def emptySubmittedAgent : SubmittedAgent :=
  { id := none, name := none, mobile := none, role := none,
    panchayath_id := none, ward := none, parent_agent_id := none,
    customer_count := none, responsible_panchayath_ids := none,
    responsible_wards := none, is_active := none, created_at := none,
    updated_at := none, created_by := none, panchayath := none,
    parent_agent := none, children := none }

/-- The PUT handler's destructuring
`const { created_at, created_by, panchayath, parent_agent, children,
...updateData } = agent`: the named keys are removed, the rest is kept. -/
def stripUpdateFields (a : SubmittedAgent) : SubmittedAgent :=
  { a with
    created_at := none
    created_by := none
    panchayath := none
    parent_agent := none
    children := none }

/-- The database `UPDATE ... SET`: every present key of the submitted
object overwrites the stored column; absent keys leave the row unchanged.
(Modelled from the spec: the hosted table applies partial updates.) -/
def applyUpdate (row : AgentRow) (u : SubmittedAgent) : AgentRow :=
  { id := u.id.getD row.id
    name := u.name.getD row.name
    mobile := u.mobile.getD row.mobile
    role := u.role.getD row.role
    panchayath_id := u.panchayath_id.getD row.panchayath_id
    ward := u.ward.getD row.ward
    parent_agent_id := u.parent_agent_id.getD row.parent_agent_id
    customer_count := u.customer_count.getD row.customer_count
    responsible_panchayath_ids :=
      u.responsible_panchayath_ids.getD row.responsible_panchayath_ids
    responsible_wards := u.responsible_wards.getD row.responsible_wards
    is_active := u.is_active.getD row.is_active
    created_at := u.created_at.getD row.created_at
    updated_at := u.updated_at.getD row.updated_at
    created_by := u.created_by.getD row.created_by }

/-- Build the row an INSERT would store, before constraint checking.
Modelled from the spec: the hosted table requires `name`, `mobile`, `role`,
`panchayath_id` and `ward` (error code 23502 when absent), generates the id
and timestamps, and defaults the responsibility arrays to `{}`
(`src/unnamed/part_005`).  `created_by` is always overwritten by the
handler's spread. -/
def mkInsertRow (u : SubmittedAgent) (creator : String) (freshId : String)
    (nowStr : String) : Except String AgentRow :=
  match u.name, u.mobile, u.role, u.panchayath_id, u.ward with
  | some nm, some mb, some rl, some pid, some wd =>
    Except.ok
      { id := u.id.getD freshId, name := nm, mobile := mb, role := rl,
        panchayath_id := pid, ward := wd,
        parent_agent_id := u.parent_agent_id.getD none,
        customer_count := u.customer_count.getD none,
        responsible_panchayath_ids :=
          u.responsible_panchayath_ids.getD (some []),
        responsible_wards := u.responsible_wards.getD (some []),
        is_active := u.is_active.getD none,
        created_at := u.created_at.getD (some nowStr),
        updated_at := u.updated_at.getD (some nowStr),
        created_by := some creator }
  | _, _, _, _, _ => Except.error "23502"

/-- A single-row INSERT.  Modelled from the spec: the store "enforces
uniqueness on mobile number" (and on the primary key), reported as error
code 23505. -/
def insertAgentRow (store : List AgentRow) (u : SubmittedAgent)
    (creator : String) (freshId : String) (nowStr : String) :
    Except String AgentRow :=
  match mkInsertRow u creator freshId nowStr with
  | .error code => .error code
  | .ok row =>
    if store.any (fun r => r.mobile == row.mobile || r.id == row.id) then
      .error "23505"
    else .ok row

/-- A batched INSERT (bulk create): one statement, atomic; any uniqueness
violation — against the store or within the batch — fails the whole
batch. -/
def insertAgentRows (store : List AgentRow) (us : List SubmittedAgent)
    (creator : String) (freshIds : Nat → String) (nowStr : String) :
    Except String (List AgentRow) :=
  match us.enum.mapM (fun p => mkInsertRow p.2 creator (freshIds p.1) nowStr)
    with
  | .error code => .error code
  | .ok rows =>
    if rows.any (fun r => store.any
          (fun s => s.mobile == r.mobile || s.id == r.id)) ||
        !(decide ((rows.map AgentRow.mobile).Nodup ∧
          (rows.map AgentRow.id).Nodup)) then
      .error "23505"
    else .ok rows

inductive HttpMethod where
  | get
  | post
  | put
  | delete
  | options
deriving DecidableEq, Repr

/-- The parsed JSON request body. -/
structure ReqBody where
  action : Option String
  agent : Option SubmittedAgent
  agents : Option (List SubmittedAgent)
  id : Option String
deriving DecidableEq, Repr

/-- An HTTP request to the `pennyekart-agents` endpoint.  `body` is the
result of `await req.json()` (`none` = the parse would throw); it is only
consulted for non-GET/DELETE methods. -/
structure HttpRequest where
  method : HttpMethod
  adminTokenHeader : Option String
  body : Option ReqBody
  paramId : Option String
  paramPanchayathId : Option String
deriving DecidableEq, Repr

/-- A response body: `{data}`, `{data, count}`, `{success}` or
`{error}`. -/
inductive RespBody where
  | empty
  | rows (rs : List AgentRow)
  | row (r : AgentRow)
  | rowsCount (rs : List AgentRow) (count : Nat)
  | success
  | error (msg : String)
deriving DecidableEq, Repr

/-- The outcome of one request: status, body, resulting database state, and
the trace of database operations performed. -/
structure ServeResult where
  status : Nat
  body : RespBody
  db : DbState
  trace : List DbOp
deriving DecidableEq, Repr

/-- The runtime environment of the edge function: `JSON.parse(atob(_))`,
`Date.now()`, the SQL `now()` timestamp, and the id generator of the
store. -/
structure RuntimeEnv where
  decode : String → Option AdminTokenPayload
  now : Int
  nowStr : String
  freshIds : Nat → String

/-- Position of a role in the `pennyekart_agent_role` enum (postgres sorts
enum columns by declaration order). -/
def roleIdx : AgentRole → Nat
  | .team_leader => 0
  | .coordinator => 1
  | .group_leader => 2
  | .pro => 3

/-- `.order("role").order("name")` of the GET handler. -/
def agentRowLe (a b : AgentRow) : Bool :=
  roleIdx a.role < roleIdx b.role ||
    (roleIdx a.role == roleIdx b.role && decide (a.name ≤ b.name))

/-- The `serve` handler of the `pennyekart-agents` edge function: CORS
preflight, token check, admin verification, then the GET/POST/PUT/DELETE
branches in source order.  (Database constraint behaviour is modelled from
the spec, see `mkInsertRow`/`insertAgentRow`.) -/
def serve (ext : RuntimeEnv) (db : DbState) (req : HttpRequest) : ServeResult :=
  if req.method = .options then ⟨200, .empty, db, []⟩
  else
    match req.adminTokenHeader with
    | none => ⟨401, .error "Unauthorized - No admin token", db, []⟩
    | some adminToken =>
      let vres := verifyAdmin ext.decode ext.now db adminToken
      match vres.1.valid, vres.1.admin with
      | true, some admin =>
        if req.method = .get then
          let rows :=
            match req.paramPanchayathId with
            | some f =>
              if f = "" then db.agents
              else db.agents.filter (fun r =>
                r.panchayath_id == f ||
                  (r.responsible_panchayath_ids.getD []).contains f)
            | none => db.agents
          ⟨200, .rows (rows.mergeSort agentRowLe), db, vres.2 ++ [.readAgents]⟩
        else if req.method = .delete then
          match req.paramId with
          | some aid =>
            if aid = "" then ⟨400, .error "Invalid action", db, vres.2⟩
            else
              ⟨200, .success,
                { db with agents := db.agents.filter (fun r => !(r.id == aid)) },
                vres.2 ++ [.deleteAgents]⟩
          | none => ⟨400, .error "Invalid action", db, vres.2⟩
        else
          match req.body with
          | none =>
            -- `await req.json()` throws; the outer catch answers 500
            ⟨500, .error "Invalid JSON body", db, vres.2⟩
          | some body =>
            if req.method = .post ∧ body.action = some "create" then
              let agent := body.agent.getD emptySubmittedAgent
              match insertAgentRow db.agents agent admin.admin_id
                  (ext.freshIds 0) ext.nowStr with
              | .error code =>
                if code = "23505" then
                  ⟨400, .error "Mobile number already exists", db,
                    vres.2 ++ [.insertAgents]⟩
                else ⟨500, .error code, db, vres.2 ++ [.insertAgents]⟩
              | .ok row =>
                ⟨200, .row row, { db with agents := db.agents ++ [row] },
                  vres.2 ++ [.insertAgents]⟩
            else if req.method = .post ∧ body.action = some "bulk_create" then
              match body.agents with
              | none =>
                -- `agents.map` on undefined throws; caught, 500
                ⟨500, .error "agents is not iterable", db, vres.2⟩
              | some us =>
                match insertAgentRows db.agents us admin.admin_id ext.freshIds
                    ext.nowStr with
                | .error code =>
                  if code = "23505" then
                    ⟨400, .error "One or more mobile numbers already exist",
                      db, vres.2 ++ [.insertAgents]⟩
                  else ⟨500, .error code, db, vres.2 ++ [.insertAgents]⟩
                | .ok rows =>
                  ⟨200, .rowsCount rows rows.length,
                    { db with agents := db.agents ++ rows },
                    vres.2 ++ [.insertAgents]⟩
            else if req.method = .put then
              match body.id, body.agent with
              | some updId, some agent =>
                if updId = "" then
                  ⟨400, .error "Missing id or agent data", db, vres.2⟩
                else
                  let updateData := stripUpdateFields agent
                  let newAgents := db.agents.map (fun r =>
                    if r.id == updId then applyUpdate r updateData else r)
                  match singleRow (newAgents.filter (fun r => r.id == updId))
                    with
                  | some row =>
                    ⟨200, .row row, { db with agents := newAgents },
                      vres.2 ++ [.updateAgents]⟩
                  | none =>
                    -- `.single()` with no (or several) matched rows errors
                    ⟨500, .error "JSON object requested, multiple (or no) rows returned",
                      { db with agents := newAgents },
                      vres.2 ++ [.updateAgents]⟩
              | _, _ => ⟨400, .error "Missing id or agent data", db, vres.2⟩
            else ⟨400, .error "Invalid action", db, vres.2⟩
      | _, _ => ⟨401, .error "Unauthorized - Invalid admin token", db, vres.2⟩

theorem parseAdminToken_ignores_signature
    (decode : String → Option AdminTokenPayload) (now : Int) (t : String) :
    parseAdminToken decode now t =
      match decode ((splitDot t).headD "") with
      | none => none
      | some payload => if payload.exp < now then none else some payload := by
  rcases hd : decode ((splitDot t).headD "") with _ | p <;>
    rw [List.headD_eq_head?_getD] at hd
  · simp [parseAdminToken, hd]
  · by_cases h : p.exp < now
    · simp [parseAdminToken, hd, h]
    · simp [parseAdminToken, hd, h]

/-- C9: the admin verification never rejects on the signature component:
two tokens with the same payload component verify identically, and any
token whose payload parses, is unexpired and names an active admin is
accepted regardless of its signature. -/
theorem verifyAdmin_signature_noninterference
    (decode : String → Option AdminTokenPayload) (now : Int) (db : DbState)
    (t1 t2 : String)
    (hpayload : (splitDot t1).headD "" = (splitDot t2).headD "") :
    verifyAdmin decode now db t1 = verifyAdmin decode now db t2 ∧
    (∀ p, decode ((splitDot t1).headD "") = some p → ¬(p.exp < now) →
      (singleRow (db.admins.filter (fun r =>
        r.id == p.admin_id && r.is_active == some true))).isSome = true →
      (verifyAdmin decode now db t1).1.valid = true) := by
  constructor
  · unfold verifyAdmin
    rw [parseAdminToken_ignores_signature, parseAdminToken_ignores_signature,
      hpayload]
  · intro p hp hexp hsingle
    have hpt : parseAdminToken decode now t1 = some p := by
      rw [parseAdminToken_ignores_signature, hp]
      simp [hexp]
    unfold verifyAdmin
    rw [hpt]
    rcases Option.isSome_iff_exists.mp hsingle with ⟨a, ha⟩
    simp only [ha]
    cases hu : p.user_id with
    | none => simp
    | some uid => by_cases huid : uid = "" <;> simp [huid]

def demoPayload : AdminTokenPayload :=
  { admin_id := "a1", user_id := none, division_id := "d1",
    full_name := "Admin One", exp := 1000 }

/-- A concrete stand-in for `JSON.parse(atob(_))` used by witnesses. -/
def demoDecode : String → Option AdminTokenPayload :=
  fun s => if s = "PAYLOAD" then some demoPayload else none

def demoAdminRow : AdminRow :=
  { id := "a1", user_id := none, division_id := "d1",
    full_name := some "Admin One", phone := none, password_hash := none,
    is_active := some true, created_at := none, created_by := none,
    access_all_divisions := false, additional_division_ids := [] }

def demoDb : DbState :=
  { admins := [demoAdminRow], user_roles := [],
    agents := [mkRow "ag1" .pro "p1" true "9876543210"] }

def demoEnv : RuntimeEnv :=
  { decode := demoDecode, now := 0, nowStr := "t1", freshIds := fun _ => "gen" }

/-- C9 witness: two concrete tokens sharing the payload component but with
different signatures verify identically, and the wrong-signature token is
accepted. -/
theorem verifyAdmin_signature_noninterference_witness :
    ((splitDot "PAYLOAD.goodsig").headD "" =
      (splitDot "PAYLOAD.wrongsig").headD "") ∧
    verifyAdmin demoDecode 0 demoDb "PAYLOAD.goodsig" =
      verifyAdmin demoDecode 0 demoDb "PAYLOAD.wrongsig" ∧
    (verifyAdmin demoDecode 0 demoDb "PAYLOAD.wrongsig").1.valid = true :=
  ⟨by decide,
    (verifyAdmin_signature_noninterference demoDecode 0 demoDb
      "PAYLOAD.goodsig" "PAYLOAD.wrongsig" (by decide)).1,
    (verifyAdmin_signature_noninterference demoDecode 0 demoDb
      "PAYLOAD.wrongsig" "PAYLOAD.wrongsig" rfl).2 demoPayload (by decide)
      (by decide) (by decide)⟩

theorem verifyAdmin_shape (decode : String → Option AdminTokenPayload)
    (now : Int) (db : DbState) (t : String) :
    (verifyAdmin decode now db t = (⟨false, none, false⟩, []) ∨
      verifyAdmin decode now db t = (⟨false, none, false⟩, [DbOp.readAdmins]))
    ∨ (∃ p s,
      verifyAdmin decode now db t = (⟨true, some p, s⟩, [DbOp.readAdmins]) ∨
      verifyAdmin decode now db t =
        (⟨true, some p, s⟩, [DbOp.readAdmins, DbOp.readUserRoles])) := by
  unfold verifyAdmin
  dsimp only
  repeat' split
  all_goals first
    | exact Or.inl (Or.inl rfl)
    | exact Or.inl (Or.inr rfl)
    | exact Or.inr ⟨_, _, Or.inl rfl⟩
    | exact Or.inr ⟨_, _, Or.inr rfl⟩

/-- C6 (amended): a request whose admin token is missing, expired or
invalid is answered 401 with an `{error}` body, the database state is
unchanged (no mutation), and the only database access possibly performed is
the single admins-verification read — the agents store is neither read nor
written. -/
theorem serve_auth_failure_401 (ext : RuntimeEnv) (db : DbState)
    (req : HttpRequest) (hopt : req.method ≠ .options)
    (hfail : req.adminTokenHeader = none ∨
      ∃ t, req.adminTokenHeader = some t ∧
        ((verifyAdmin ext.decode ext.now db t).1.valid = false ∨
          (verifyAdmin ext.decode ext.now db t).1.admin = none)) :
    (serve ext db req).status = 401 ∧
    (∃ msg, (serve ext db req).body = RespBody.error msg) ∧
    (serve ext db req).db = db ∧
    ((serve ext db req).trace = [] ∨
      (serve ext db req).trace = [DbOp.readAdmins]) := by
  rcases hfail with hnone | ⟨t, ht, hbad⟩
  · have hserve : serve ext db req =
        ⟨401, .error "Unauthorized - No admin token", db, []⟩ := by
      unfold serve
      rw [if_neg hopt, hnone]
    rw [hserve]
    exact ⟨rfl, ⟨_, rfl⟩, rfl, Or.inl rfl⟩
  · rcases verifyAdmin_shape ext.decode ext.now db t with
      (h1 | h1) | ⟨p, s, (h1 | h1)⟩
    · have hserve : serve ext db req =
          ⟨401, .error "Unauthorized - Invalid admin token", db, []⟩ := by
        unfold serve
        rw [if_neg hopt, ht]
        dsimp only
        rw [h1]
      rw [hserve]
      exact ⟨rfl, ⟨_, rfl⟩, rfl, Or.inl rfl⟩
    · have hserve : serve ext db req =
          ⟨401, .error "Unauthorized - Invalid admin token", db,
            [DbOp.readAdmins]⟩ := by
        unfold serve
        rw [if_neg hopt, ht]
        dsimp only
        rw [h1]
      rw [hserve]
      exact ⟨rfl, ⟨_, rfl⟩, rfl, Or.inr rfl⟩
    · rw [h1] at hbad
      simp at hbad
    · rw [h1] at hbad
      simp at hbad

/-- A PUT request carrying a syntactically valid, unexpired token that
names an admin absent from the `admins` table. -/
def unknownAdminBody : ReqBody :=
  { action := none, agent := some emptySubmittedAgent, agents := none,
    id := some "ag1" }

def unknownAdminReq : HttpRequest :=
  { method := .put, adminTokenHeader := some "PAYLOAD.sig",
    body := some unknownAdminBody, paramId := none,
    paramPanchayathId := none }

def noAdminDb : DbState :=
  { admins := [], user_roles := [],
    agents := [mkRow "ag1" .pro "p1" true "9876543210"] }

/-- C6 counterexample: on this authorization failure the endpoint answers
401 — but it has performed a database read (the admins lookup), so the
claim that no database read occurs on authorization failure is false as
stated. -/
theorem serve_auth_failure_reads_counterexample :
    (serve demoEnv noAdminDb unknownAdminReq).status = 401 ∧
    (serve demoEnv noAdminDb unknownAdminReq).trace = [DbOp.readAdmins] ∧
    (serve demoEnv noAdminDb unknownAdminReq).trace ≠ [] := by
  have h2 : (serve demoEnv noAdminDb unknownAdminReq).trace =
      [DbOp.readAdmins] := rfl
  refine ⟨rfl, h2, ?_⟩
  rw [h2]
  decide

/-- C6 witness: the concrete unknown-admin PUT request is an authorization
failure; the endpoint answers 401 and leaves the database unchanged. -/
theorem serve_auth_failure_401_witness :
    (unknownAdminReq.method ≠ HttpMethod.options ∧
      (verifyAdmin demoEnv.decode demoEnv.now noAdminDb
        "PAYLOAD.sig").1.valid = false) ∧
    (serve demoEnv noAdminDb unknownAdminReq).status = 401 ∧
    (serve demoEnv noAdminDb unknownAdminReq).db = noAdminDb :=
  ⟨⟨by decide, by decide⟩,
    (serve_auth_failure_401 demoEnv noAdminDb unknownAdminReq (by decide)
      (Or.inr ⟨"PAYLOAD.sig", rfl, Or.inl (by decide)⟩)).1,
    (serve_auth_failure_401 demoEnv noAdminDb unknownAdminReq (by decide)
      (Or.inr ⟨"PAYLOAD.sig", rfl, Or.inl (by decide)⟩)).2.2.1⟩

/-- C7: a create request for an agent whose mobile number already exists in
the store is answered 400 with the message "Mobile number already exists",
and no row is written. -/
theorem serve_create_duplicate_mobile
    (ext : RuntimeEnv) (db : DbState) (req : HttpRequest) (t : String)
    (p : AdminTokenPayload) (sflag : Bool) (tr : List DbOp)
    (body0 : ReqBody) (u : SubmittedAgent) (m : String)
    (hm : req.method = .post)
    (ht : req.adminTokenHeader = some t)
    (hv : verifyAdmin ext.decode ext.now db t = (⟨true, some p, sflag⟩, tr))
    (hbody : req.body = some body0)
    (hact : body0.action = some "create")
    (hagent : body0.agent = some u)
    (hname : u.name.isSome = true) (hmob : u.mobile = some m)
    (hrole : u.role.isSome = true) (hpan : u.panchayath_id.isSome = true)
    (hward : u.ward.isSome = true)
    (hdup : ∃ r ∈ db.agents, r.mobile = m) :
    (serve ext db req).status = 400 ∧
    (serve ext db req).body = RespBody.error "Mobile number already exists" ∧
    (serve ext db req).db.agents = db.agents := by
  rcases Option.isSome_iff_exists.mp hname with ⟨nm, hnm⟩
  rcases Option.isSome_iff_exists.mp hrole with ⟨rl, hrl⟩
  rcases Option.isSome_iff_exists.mp hpan with ⟨pid, hpid⟩
  rcases Option.isSome_iff_exists.mp hward with ⟨wd, hwd⟩
  rcases hdup with ⟨r0, hr0, hr0m⟩
  have hins : insertAgentRow db.agents u p.admin_id (ext.freshIds 0)
      ext.nowStr = Except.error "23505" := by
    unfold insertAgentRow mkInsertRow
    rw [hnm, hmob, hrl, hpid, hwd]
    dsimp only
    have hany : (db.agents.any (fun r =>
        r.mobile == m || r.id == u.id.getD (ext.freshIds 0))) = true := by
      rw [List.any_eq_true]
      exact ⟨r0, hr0, by simp [hr0m]⟩
    rw [hany]
    rfl
  have hserve : serve ext db req =
      ⟨400, .error "Mobile number already exists", db,
        tr ++ [DbOp.insertAgents]⟩ := by
    unfold serve
    rw [if_neg (by rw [hm]; exact fun hco => HttpMethod.noConfusion hco), ht]
    dsimp only
    rw [hv]
    dsimp only
    rw [hm, hbody]
    dsimp only
    simp only [hact, hagent]
    dsimp only [Option.getD]
    simp only [hins]
    simp
  rw [hserve]
  exact ⟨rfl, rfl, rfl⟩

/-- A submitted agent whose mobile number collides with the stored agent of
`demoDb`. -/
def dupSubmitted : SubmittedAgent :=
  { emptySubmittedAgent with
    name := some "New Agent"
    mobile := some "9876543210"
    role := some .pro
    panchayath_id := some "p1"
    ward := some "2" }

def createDupBody : ReqBody :=
  { action := some "create", agent := some dupSubmitted, agents := none,
    id := none }

def createDupReq : HttpRequest :=
  { method := .post, adminTokenHeader := some "PAYLOAD.sig",
    body := some createDupBody, paramId := none, paramPanchayathId := none }

/-- C7 witness: creating an agent with the already-present mobile
`9876543210` is rejected with the specific message and writes nothing. -/
theorem serve_create_duplicate_mobile_witness :
    (createDupReq.method = HttpMethod.post ∧
      (∃ r ∈ demoDb.agents, r.mobile = "9876543210")) ∧
    (serve demoEnv demoDb createDupReq).status = 400 ∧
    (serve demoEnv demoDb createDupReq).body =
      RespBody.error "Mobile number already exists" ∧
    (serve demoEnv demoDb createDupReq).db.agents = demoDb.agents :=
  ⟨⟨rfl, by decide⟩,
    serve_create_duplicate_mobile demoEnv demoDb createDupReq "PAYLOAD.sig"
      demoPayload false [DbOp.readAdmins] createDupBody dupSubmitted
      "9876543210" rfl rfl (by decide) rfl rfl rfl rfl rfl rfl rfl rfl
      (by decide)⟩

/-- C10: a PUT request never changes any stored row's `created_at` or
`created_by` (nor adds or removes rows): the handler strips `created_at`,
`created_by`, `panchayath`, `parent_agent` and `children` from the
submitted object before the update. -/
theorem serve_put_preserves_created (ext : RuntimeEnv) (db : DbState)
    (req : HttpRequest) (hm : req.method = HttpMethod.put) :
    (serve ext db req).db.agents.map (fun r => (r.created_at, r.created_by))
      = db.agents.map (fun r => (r.created_at, r.created_by)) := by
  unfold serve
  rw [if_neg (by rw [hm]; exact fun hco => HttpMethod.noConfusion hco)]
  rcases hh : req.adminTokenHeader with _ | t
  · rfl
  · dsimp only
    rcases verifyAdmin_shape ext.decode ext.now db t with
      (h1 | h1) | ⟨p, s, (h1 | h1)⟩ <;> rw [h1] <;> dsimp only
    all_goals
      rw [hm]
      rcases hb : req.body with _ | body0
      · simp
      · dsimp only
        simp only [show (HttpMethod.put = HttpMethod.get) = False by simp,
          show (HttpMethod.put = HttpMethod.delete) = False by simp,
          show (HttpMethod.put = HttpMethod.post) = False by simp,
          false_and, if_false, ite_false, eq_self_iff_true, if_true]
        rcases hid : body0.id with _ | updId <;>
          rcases hag : body0.agent with _ | agent <;>
          dsimp only
        by_cases hup : updId = ""
        · simp [hup]
        · rw [if_neg hup]
          have hmapeq : ∀ newAgents : List AgentRow,
              newAgents = db.agents.map (fun r =>
                if r.id == updId then
                  applyUpdate r (stripUpdateFields agent) else r) →
              newAgents.map (fun r => (r.created_at, r.created_by)) =
                db.agents.map (fun r => (r.created_at, r.created_by)) := by
            intro newAgents hna
            rw [hna, List.map_map]
            apply List.map_congr_left
            intro r _
            by_cases hr : (r.id == updId) = true
            · show ((if r.id == updId then
                  applyUpdate r (stripUpdateFields agent) else r).created_at,
                (if r.id == updId then
                  applyUpdate r (stripUpdateFields agent) else r).created_by)
                = (r.created_at, r.created_by)
              rw [if_pos hr]
              simp [applyUpdate, stripUpdateFields]
            · show ((if r.id == updId then
                  applyUpdate r (stripUpdateFields agent) else r).created_at,
                (if r.id == updId then
                  applyUpdate r (stripUpdateFields agent) else r).created_by)
                = (r.created_at, r.created_by)
              rw [if_neg hr]
          rcases hsg : singleRow ((db.agents.map (fun r =>
              if r.id == updId then
                applyUpdate r (stripUpdateFields agent) else r)).filter
              (fun r => r.id == updId)) with _ | row <;>
            simp only [hsg] <;>
            exact hmapeq _ rfl

/-- An update that tries to overwrite `created_at` and `created_by`. -/
def tamperSubmitted : SubmittedAgent :=
  { emptySubmittedAgent with
    name := some "Renamed Agent"
    created_at := some (some "2030-01-01")
    created_by := some (some "someone-else") }

def putTamperBody : ReqBody :=
  { action := none, agent := some tamperSubmitted, agents := none,
    id := some "ag1" }

def putTamperReq : HttpRequest :=
  { method := .put, adminTokenHeader := some "PAYLOAD.sig",
    body := some putTamperBody, paramId := none, paramPanchayathId := none }

/-- C10 witness: a concrete PUT that submits new `created_at`/`created_by`
values leaves both columns of every stored row unchanged. -/
theorem serve_put_preserves_created_witness :
    putTamperReq.method = HttpMethod.put ∧
    (serve demoEnv demoDb putTamperReq).db.agents.map
        (fun r => (r.created_at, r.created_by)) =
      demoDb.agents.map (fun r => (r.created_at, r.created_by)) :=
  ⟨rfl, serve_put_preserves_created demoEnv demoDb putTamperReq rfl⟩
